import Mathlib

/-!
# Expense Tracker Pro — verification of the persistence and aggregation engine

A shallow embedding of `src/tracker.py` (classes `Database` and
`ExpenseTracker`, plus the inline statistics code in `main`).  The SQLite
tables are modelled as in-memory lists inside a `Store`; machine floats
(SQLite `REAL` / pandas float64) are modelled as rationals; calendar dates
as integers (day numbers); SHA-256 is modelled as an abstract digest
function passed as a parameter.  The pandas sorts (`ORDER BY date DESC`,
`sort_values`, `nlargest`) are modelled with the stable
`List.insertionSort`.
-/

attribute [local semireducible] Rat.add Rat.mul Rat.sub Rat.inv

namespace Tracker

/-! ## String order

Python compares `str` values by code point; pandas uses that order for
`groupby` keys.  `charListLeb` is that comparison on the underlying
character lists, written by structural recursion so that concrete
instances evaluate. -/

/-- Lexicographic code-point comparison of character lists. -/
def charListLeb : List Char → List Char → Bool
  | [], _ => true
  | _ :: _, [] => false
  | a :: as, b :: bs =>
    if a.toNat < b.toNat then true
    else if b.toNat < a.toNat then false
    else charListLeb as bs

/-- Python's `<=` on strings. -/
def strLeb (a b : String) : Bool := charListLeb a.data b.data

/-- Python's `<=` on strings, as a proposition. -/
def strLe (a b : String) : Prop := strLeb a b = true

/-- Python's strict `<` on strings, as a proposition. -/
def strLt (a b : String) : Prop := strLeb b a = false

instance : DecidableRel strLe := fun a b =>
  inferInstanceAs (Decidable (strLeb a b = true))

instance : DecidableRel strLt := fun a b =>
  inferInstanceAs (Decidable (strLeb b a = false))

instance : IsTotal String strLe where
  total a b := by
    show charListLeb a.data b.data = true ∨ charListLeb b.data a.data = true
    generalize a.data = as
    generalize b.data = bs
    induction as generalizing bs with
    | nil => left; rfl
    | cons a as ih =>
      cases bs with
      | nil => right; rfl
      | cons b bs =>
        simp only [charListLeb]
        rcases Nat.lt_trichotomy a.toNat b.toNat with h | h | h
        · left; simp [h]
        · have h1 : ¬ a.toNat < b.toNat := by omega
          have h2 : ¬ b.toNat < a.toNat := by omega
          simpa [h1, h2] using ih bs
        · right; simp [h, Nat.lt_asymm h]

instance : IsTrans String strLe where
  trans a b c h1 h2 := by
    show charListLeb a.data c.data = true
    revert h1 h2
    show charListLeb a.data b.data = true → charListLeb b.data c.data = true →
      charListLeb a.data c.data = true
    generalize a.data = as
    generalize b.data = bs
    generalize c.data = cs
    intro h1 h2
    induction as generalizing bs cs with
    | nil => rfl
    | cons a as ih =>
      cases bs with
      | nil => simp [charListLeb] at h1
      | cons b bs =>
        cases cs with
        | nil => simp [charListLeb] at h2
        | cons c cs =>
          simp only [charListLeb] at h1 h2 ⊢
          by_cases hbc : b.toNat < c.toNat
          · by_cases hab : a.toNat < b.toNat
            · simp [show a.toNat < c.toNat by omega]
            · by_cases hba : b.toNat < a.toNat
              · simp [hab, hba] at h1
              · simp [show a.toNat < c.toNat by omega]
          · by_cases hcb : c.toNat < b.toNat
            · simp [hbc, hcb] at h2
            · by_cases hab : a.toNat < b.toNat
              · simp [show a.toNat < c.toNat by omega]
              · by_cases hba : b.toNat < a.toNat
                · simp [hab, hba] at h1
                · have hac : ¬ a.toNat < c.toNat := by omega
                  have hca : ¬ c.toNat < a.toNat := by omega
                  simp only [hab, hba, if_false, if_neg] at h1
                  simp only [hbc, hcb, if_false, if_neg] at h2
                  simp [hac, hca]
                  exact ih bs cs h1 h2

instance : IsAntisymm String strLe where
  antisymm a b h1 h2 := by
    obtain ⟨as⟩ := a
    obtain ⟨bs⟩ := b
    apply congrArg String.mk
    replace h1 : charListLeb as bs = true := h1
    replace h2 : charListLeb bs as = true := h2
    induction as generalizing bs with
    | nil =>
      cases bs with
      | nil => rfl
      | cons b bs => simp [charListLeb] at h2
    | cons a as ih =>
      cases bs with
      | nil => simp [charListLeb] at h1
      | cons b bs =>
        simp only [charListLeb] at h1 h2
        rcases Nat.lt_trichotomy a.toNat b.toNat with hab | hab | hab
        · simp [Nat.lt_asymm hab, hab] at h2
        · have h1' : ¬ a.toNat < b.toNat := by omega
          have h2' : ¬ b.toNat < a.toNat := by omega
          simp only [h1', h2', if_false, if_neg] at h1 h2
          have hab' : a = b := by
            apply Char.eq_of_val_eq
            apply UInt32.eq_of_toBitVec_eq
            apply BitVec.eq_of_toNat_eq
            exact hab
          rw [hab', ih bs h1 h2]
        · simp [Nat.lt_asymm hab, hab] at h1

/-- A row of the `expenses` table:
`(id, user_id, date, category, amount, description)`. -/
structure Expense where
  id : Nat
  user_id : Nat
  date : Int
  category : String
  amount : ℚ
  description : String
deriving DecidableEq, Repr

/-- A row of the `users` table: `(id, username, password_hash, email)`. -/
structure User where
  id : Nat
  username : String
  password_hash : String
  email : String
deriving DecidableEq, Repr

/-- The durable state behind `Database`: both tables plus the
`AUTOINCREMENT` counters for the surrogate primary keys. -/
structure Store where
  users : List User
  expenses : List Expense
  next_user_id : Nat
  next_expense_id : Nat
deriving DecidableEq, Repr

/-- `ORDER BY date DESC` comparison on expense rows. -/
def dateDesc (a b : Expense) : Prop := b.date ≤ a.date

instance : DecidableRel dateDesc := fun a b =>
  inferInstanceAs (Decidable (b.date ≤ a.date))

instance : IsTotal Expense dateDesc := ⟨fun a b => le_total b.date a.date⟩

instance : IsTrans Expense dateDesc := ⟨fun _ _ _ h1 h2 => le_trans h2 h1⟩

/-- Descending comparison by amount, used by `nlargest(n, 'amount')`. -/
def amountDesc (a b : Expense) : Prop := b.amount ≤ a.amount

instance : DecidableRel amountDesc := fun a b =>
  inferInstanceAs (Decidable (b.amount ≤ a.amount))

instance : IsTotal Expense amountDesc := ⟨fun a b => le_total b.amount a.amount⟩

instance : IsTrans Expense amountDesc := ⟨fun _ _ _ h1 h2 => le_trans h2 h1⟩

/-- `Database.create_user`: hashes the password, then attempts the
`INSERT`; the `UNIQUE` constraint on `username` raises `IntegrityError`
for a duplicate, which the code turns into a `(False, message)` return
with no row written.  `hash_password` abstracts
`hashlib.sha256(password.encode()).hexdigest()`. -/
def create_user (hash_password : String → String) (s : Store)
    (username password email : String) : Store × Bool × String :=
  if s.users.any (fun u => u.username == username) then
    (s, false, "Username already exists!")
  else
    ({ s with
        users := s.users ++
          [{ id := s.next_user_id, username := username,
             password_hash := hash_password password, email := email }],
        next_user_id := s.next_user_id + 1 },
     true, "User created successfully!")

/-- `Database.authenticate_user`: recomputes the digest and selects
`id, username` from `users WHERE username = ? AND password_hash = ?`,
returning the row or `None`. -/
def authenticate_user (hash_password : String → String) (s : Store)
    (username password : String) : Option (Nat × String) :=
  match s.users.find? (fun u =>
      u.username == username && u.password_hash == hash_password password) with
  | some u => some (u.id, u.username)
  | none => none

/-- `ExpenseTracker.add_expense`: unconditionally inserts the row and
returns `True`.  (The function itself performs no validation of
`amount`.) -/
def add_expense (s : Store) (user_id : Nat) (date : Int) (category : String)
    (amount : ℚ) (description : String) : Store × Bool :=
  ({ s with
      expenses := s.expenses ++
        [{ id := s.next_expense_id, user_id := user_id, date := date,
           category := category, amount := amount, description := description }],
      next_expense_id := s.next_expense_id + 1 },
   true)

/-- The "Add Expense" form handler in `main`: only calls `add_expense`
when `amount > 0`, otherwise shows an error and writes nothing. -/
def add_expense_submit (s : Store) (user_id : Nat) (date : Int)
    (category : String) (amount : ℚ) (description : String) : Store × Bool :=
  if amount > 0 then
    ((add_expense s user_id date category amount description).1, true)
  else
    (s, false)

/-- `ExpenseTracker.get_expenses`: `SELECT … WHERE user_id = ?
ORDER BY date DESC`. -/
def get_expenses (s : Store) (user_id : Nat) : List Expense :=
  List.insertionSort dateDesc (s.expenses.filter (fun e => e.user_id == user_id))

/-- `ExpenseTracker.get_filtered_expenses`.  Python truthiness is kept:
`if filter_category and filter_category != 'All'` skips the category
filter for `None` and for the empty string; `if days:` skips the recency
filter for `None` and for `0`.  `now` stands for `datetime.now()`
measured in days. -/
def get_filtered_expenses (s : Store) (user_id : Nat)
    (filter_category : Option String) (days : Option Nat) (now : Int) :
    List Expense :=
  let df := get_expenses s user_id
  if df.isEmpty then df
  else
    let df1 :=
      match filter_category with
      | none => df
      | some c =>
          if c ≠ "" ∧ c ≠ "All" then df.filter (fun e => e.category == c) else df
    match days with
    | none => df1
    | some d =>
        if d ≠ 0 then df1.filter (fun e => now - (d : Int) ≤ e.date) else df1

/-- `ExpenseTracker.delete_expense`: `DELETE FROM expenses WHERE id = ?
AND user_id = ?`, then reports `rowcount > 0`. -/
def delete_expense (s : Store) (user_id : Nat) (expense_id : Nat) :
    Store × Bool :=
  let remaining :=
    s.expenses.filter (fun e => ¬(e.id = expense_id ∧ e.user_id = user_id))
  ({ s with expenses := remaining },
   decide (remaining.length < s.expenses.length))

/-- Round a rational to the nearest integer, ties to even — the rounding
used by numpy/pandas `.round`. -/
def roundHalfEven (q : ℚ) : ℤ :=
  let n := ⌊q⌋
  let r := q - n
  if r < 1/2 then n
  else if 1/2 < r then n + 1
  else if n % 2 = 0 then n else n + 1

/-- pandas `.round(2)`. -/
def round2 (q : ℚ) : ℚ := (roundHalfEven (q * 100) : ℚ) / 100

/-- A row of the category summary frame: index `category`, columns
`Total`, `Count`, `Percentage`. -/
structure CatRow where
  category : String
  total : ℚ
  count : Nat
  percentage : ℚ
deriving DecidableEq, Repr

/-- `sort_values('Total', ascending=False)` comparison. -/
def totalDesc (a b : CatRow) : Prop := b.total ≤ a.total

instance : DecidableRel totalDesc := fun a b =>
  inferInstanceAs (Decidable (b.total ≤ a.total))

instance : IsTotal CatRow totalDesc := ⟨fun a b => le_total b.total a.total⟩

instance : IsTrans CatRow totalDesc := ⟨fun _ _ _ h1 h2 => le_trans h2 h1⟩

/-- The distinct `groupby` keys of a frame, ascending (pandas `groupby`
sorts its keys). -/
def groupKeys (df : List Expense) : List String :=
  List.insertionSort strLe (df.map Expense.category).dedup

/-- The aggregated row for one category: `agg(['sum', 'count'])`. -/
def catRowFor (df : List Expense) (c : String) : CatRow :=
  let xs := df.filter (fun e => e.category == c)
  { category := c, total := (xs.map Expense.amount).sum,
    count := xs.length, percentage := 0 }

/-- `ExpenseTracker.get_category_summary`: groups by category, aggregates
sum and count, adds `Percentage = (Total / Total.sum() * 100).round(2)`,
and sorts by `Total` descending.  An empty frame is returned untouched. -/
def get_category_summary (s : Store) (user_id : Nat) : List CatRow :=
  let df := get_expenses s user_id
  if df.isEmpty then []
  else
    let rows := (groupKeys df).map (catRowFor df)
    let grand := (rows.map CatRow.total).sum
    let rows2 := rows.map (fun r =>
      { r with percentage := round2 (r.total / grand * 100) })
    List.insertionSort totalDesc rows2

/-- The dashboard / monthly-report statistics block in `main`:
`total_spent = df['amount'].sum()`, `num_transactions = len(df)`,
`avg_transaction = total_spent / num_transactions if num_transactions > 0
else 0`. -/
def overallStats (records : List Expense) : ℚ × Nat × ℚ :=
  let total_spent := (records.map Expense.amount).sum
  let num_transactions := records.length
  (total_spent, num_transactions,
   if num_transactions > 0 then total_spent / num_transactions else 0)

/-- The dashboard trend series in `main`:
`df.groupby(df['date'].dt.date)['amount'].sum().tail(w)` — amounts summed
per distinct date (keys ascending), then the last `w` rows. -/
def daily_spending (records : List Expense) (w : Nat) : List (Int × ℚ) :=
  let dates := List.insertionSort (· ≤ ·) (records.map Expense.date).dedup
  let grouped := dates.map (fun d =>
    (d, ((records.filter (fun e => e.date == d)).map Expense.amount).sum))
  grouped.drop (grouped.length - w)

/-- `monthly_data.nlargest(n, 'amount')`: the `n` rows with the largest
amounts, descending, ties keeping the earliest rows first. -/
def nlargest (n : Nat) (records : List Expense) : List Expense :=
  (List.insertionSort amountDesc records).take n

/-- The fully aggregated row that `get_category_summary` produces for
category `c` on a non-empty frame `df`: `catRowFor` plus the percentage
column computed against the grand total `summary['Total'].sum()`. -/
def summaryRow (df : List Expense) (c : String) : CatRow :=
  { catRowFor df c with
    percentage := round2 ((catRowFor df c).total /
      (((groupKeys df).map (catRowFor df)).map CatRow.total).sum * 100) }

/-! ## Concrete sample data for witnesses and counterexamples -/

/-- A single expense row: id 1, user 1, date 0, Food, 10.00. -/
def e0 : Expense :=
  { id := 1, user_id := 1, date := 0, category := "Food", amount := 10,
    description := "" }

/-- A store with one user (alice) and one expense (`e0`). -/
def store1 : Store :=
  { users := [{ id := 1, username := "alice", password_hash := "ha", email := "" }],
    expenses := [e0],
    next_user_id := 2, next_expense_id := 2 }

/-- Expense (2024-01-05, Food, 12.50) from the spec's worked example. -/
def spec8a : Expense :=
  { id := 1, user_id := 1, date := 5, category := "Food", amount := 25/2,
    description := "" }

/-- Expense (2024-01-20, Food, 7.50) from the spec's worked example. -/
def spec8b : Expense :=
  { id := 2, user_id := 1, date := 20, category := "Food", amount := 15/2,
    description := "" }

/-- Expense (2024-02-01, Transport, 30.00) from the spec's worked example. -/
def spec8c : Expense :=
  { id := 3, user_id := 1, date := 32, category := "Transport", amount := 30,
    description := "" }

/-- The store of the spec's worked example: user alice with three
expenses. -/
def store3 : Store :=
  { users := [{ id := 1, username := "alice", password_hash := "ha", email := "" }],
    expenses := [spec8a, spec8b, spec8c],
    next_user_id := 2, next_expense_id := 4 }

/-- A concrete digest function standing in for SHA-256 in witnesses. -/
def sampleHash (p : String) : String := "h" ++ p

/-! ## General list lemmas -/

open List

theorem mem_pair_sublist {α : Type _} {x y : α} {l : List α}
    (hx : x ∈ l) (hy : y ∈ l) (hne : x ≠ y) :
    [x, y] <+ l ∨ [y, x] <+ l := by
  induction l with
  | nil => cases hx
  | cons a t ih =>
    rcases List.mem_cons.mp hx with rfl | hx'
    · have hy' : y ∈ t := by
        rcases List.mem_cons.mp hy with rfl | h
        · exact absurd rfl hne
        · exact h
      exact Or.inl (List.cons_sublist_cons.mpr (List.singleton_sublist.mpr hy'))
    · rcases List.mem_cons.mp hy with rfl | hy'
      · exact Or.inr (List.cons_sublist_cons.mpr (List.singleton_sublist.mpr hx'))
      · rcases ih hx' hy' with h | h
        · exact Or.inl (h.cons a)
        · exact Or.inr (h.cons a)

theorem pair_sublist_antisymm {α : Type _} {x y : α} {l : List α}
    (hnd : l.Nodup) (h1 : [x, y] <+ l) (h2 : [y, x] <+ l) : x = y := by
  induction l with
  | nil => cases h1
  | cons a t ih =>
    have ha : a ∉ t := (List.nodup_cons.mp hnd).1
    have hnd' : t.Nodup := (List.nodup_cons.mp hnd).2
    cases h1 with
    | cons _ h1' =>
      cases h2 with
      | cons _ h2' => exact ih hnd' h1' h2'
      | cons₂ _ h2' =>
        exact absurd (h1'.subset (by simp)) ha
    | cons₂ _ h1' =>
      cases h2 with
      | cons _ h2' =>
        exact absurd (h2'.subset (by simp)) ha
      | cons₂ _ h2' => rfl

theorem find?_eq_of_unique {α : Type _} {l : List α} {p : α → Bool} {x : α}
    (hx : x ∈ l) (hp : p x = true)
    (huniq : ∀ y ∈ l, p y = true → y = x) : l.find? p = some x := by
  induction l with
  | nil => cases hx
  | cons a t ih =>
    by_cases ha : p a = true
    · have : a = x := huniq a (List.mem_cons_self a t) ha
      subst this
      rw [List.find?_cons_of_pos _ ha]
    · rw [List.find?_cons_of_neg _ ha]
      have hx' : x ∈ t := by
        rcases List.mem_cons.mp hx with rfl | h
        · exact absurd hp ha
        · exact h
      exact ih hx' fun y hy => huniq y (List.mem_cons_of_mem a hy)

/-- Stability of `orderedInsert` through `filter`: if the inserted element
is `r`-below every `p`-element of the list, it lands in front of all of
them. -/
theorem filter_orderedInsert_of_tied {α : Type _} {r : α → α → Prop}
    [DecidableRel r] {p : α → Bool} {a : α} {l : List α}
    (hp : ∀ b ∈ l, p a = true → p b = true → r a b) :
    (l.orderedInsert r a).filter p =
      if p a = true then a :: l.filter p else l.filter p := by
  rw [List.orderedInsert_eq_take_drop]
  rw [List.filter_append]
  by_cases hpa : p a = true
  · have htake : (l.takeWhile fun b => decide ¬r a b).filter p = [] := by
      rw [List.filter_eq_nil_iff]
      intro b hb
      have hmem : b ∈ l := (List.takeWhile_sublist _).subset hb
      have hnr : ¬ r a b := by
        have := List.mem_takeWhile_imp hb
        simpa using this
      intro hpb
      exact hnr (hp b hmem hpa hpb)
    rw [htake, List.filter_cons, if_pos hpa, if_pos hpa]
    have : l.filter p =
        ((l.takeWhile fun b => decide ¬r a b).filter p) ++
          ((l.dropWhile fun b => decide ¬r a b).filter p) := by
      rw [← List.filter_append, List.takeWhile_append_dropWhile]
    rw [this, htake]
    simp
  · rw [List.filter_cons, if_neg hpa, if_neg hpa, ← List.filter_append,
      List.takeWhile_append_dropWhile]

/-- Stability of `insertionSort` through `filter`: the order of mutually
tied elements is preserved. -/
theorem filter_insertionSort_of_tied {α : Type _} {r : α → α → Prop}
    [DecidableRel r] {p : α → Bool}
    (hp : ∀ a b, p a = true → p b = true → r a b) (l : List α) :
    (List.insertionSort r l).filter p = l.filter p := by
  induction l with
  | nil => rfl
  | cons a t ih =>
    rw [List.insertionSort]
    rw [filter_orderedInsert_of_tied (fun b _ hpa hpb => hp a b hpa hpb)]
    by_cases hpa : p a = true
    · rw [if_pos hpa, ih, List.filter_cons, if_pos hpa]
    · rw [if_neg hpa, ih, List.filter_cons, if_neg hpa]

theorem nodup_map_eq_of_eq {α β : Type _} {l : List α} {f : α → β}
    (h : (l.map f).Nodup) {x y : α} (hx : x ∈ l) (hy : y ∈ l)
    (hf : f x = f y) : x = y := by
  induction l with
  | nil => cases hx
  | cons a t ih =>
    rw [List.map_cons, List.nodup_cons] at h
    rcases List.mem_cons.mp hx with rfl | hx' <;>
      rcases List.mem_cons.mp hy with rfl | hy'
    · rfl
    · exact absurd (hf ▸ List.mem_map_of_mem f hy') h.1
    · exact absurd (hf ▸ List.mem_map_of_mem f hx') (by simpa [hf] using h.1)
    · exact ih h.2 hx' hy'

/-! ## Engine support lemmas -/

theorem mem_get_expenses {s : Store} {u : Nat} {e : Expense} :
    e ∈ get_expenses s u ↔ e ∈ s.expenses ∧ e.user_id = u := by
  simp [get_expenses, List.mem_insertionSort, List.mem_filter]

theorem filtered_sublist (s : Store) (u : Nat) (c : Option String)
    (d : Option Nat) (now : Int) :
    get_filtered_expenses s u c d now <+ get_expenses s u := by
  unfold get_filtered_expenses
  by_cases h : (get_expenses s u).isEmpty
  · simp [h]
  · rw [if_neg h]
    rcases d with _ | dd <;> rcases c with _ | cs <;> dsimp only
    · exact Sublist.refl _
    · split_ifs with hc
      · exact filter_sublist _
      · exact Sublist.refl _
    · split_ifs with hd
      · exact filter_sublist _
      · exact Sublist.refl _
    · split_ifs with hc hd hd
      · exact (filter_sublist _).trans (filter_sublist _)
      · exact filter_sublist _
      · exact filter_sublist _
      · exact Sublist.refl _


theorem strLt_iff {a b : String} : strLt a b ↔ strLe a b ∧ a ≠ b := by
  constructor
  · intro h
    have htot := total_of strLe a b
    have hnle : ¬ strLe b a := by
      intro hc
      rw [strLe] at hc
      rw [strLt, hc] at h
      cases h
    have hle : strLe a b := htot.resolve_right hnle
    refine ⟨hle, ?_⟩
    rintro rfl
    exact hnle hle
  · rintro ⟨hle, hne⟩
    rw [strLt]
    by_contra h
    have hba : strLe b a := by
      rcases Bool.eq_false_or_eq_true (strLeb b a) with hb | hb
      · exact hb
      · exact absurd hb h
    exact hne (antisymm hle hba)

theorem groupKeys_sorted (df : List Expense) : (groupKeys df).Sorted strLe :=
  List.sorted_insertionSort _ _

theorem groupKeys_nodup (df : List Expense) : (groupKeys df).Nodup :=
  (List.perm_insertionSort _ _).nodup_iff.mpr (List.nodup_dedup _)

theorem mem_groupKeys {df : List Expense} {c : String} :
    c ∈ groupKeys df ↔ ∃ e ∈ df, e.category = c := by
  simp [groupKeys, List.mem_insertionSort, List.mem_dedup, List.mem_map]

theorem groupKeys_pairwise_lt (df : List Expense) :
    (groupKeys df).Pairwise strLt := by
  have h1 := groupKeys_sorted df
  have h2 : (groupKeys df).Pairwise (· ≠ ·) := groupKeys_nodup df
  exact (h1.and h2).imp fun hab => strLt_iff.mpr hab

theorem get_category_summary_eq (s : Store) (u : Nat)
    (h : ¬ (get_expenses s u).isEmpty = true) :
    get_category_summary s u =
      List.insertionSort totalDesc
        ((groupKeys (get_expenses s u)).map (summaryRow (get_expenses s u))) := by
  simp only [get_category_summary]
  rw [if_neg h, List.map_map]
  rfl

/-! ## Claims -/

/-- C4: `overallStats` (the dashboard / monthly statistics block) returns
total = sum of amounts, count = number of records, average = total / count
when count > 0 and 0 when count = 0; on an empty record set it returns
(0, 0, 0) and never performs a division by zero. -/
theorem C4_overallStats_safe (records : List Expense) :
    (overallStats records).1 = (records.map Expense.amount).sum ∧
    (overallStats records).2.1 = records.length ∧
    (records.length ≠ 0 →
      (overallStats records).2.2 =
        (records.map Expense.amount).sum / (records.length : ℚ)) ∧
    (records.length = 0 → overallStats records = (0, 0, 0)) := by
  refine ⟨rfl, rfl, fun h => ?_, fun h => ?_⟩
  · simp [overallStats, Nat.pos_of_ne_zero h]
  · rcases records with _ | ⟨e, t⟩
    · simp [overallStats]
    · simp at h

/-- Witness for C4: the empty record set gives (0, 0, 0), and a singleton
gives average = total / 1. -/
theorem C4_overallStats_safe_witness :
    overallStats ([] : List Expense) = (0, 0, 0) ∧
    (overallStats [e0]).2.2 =
      (([e0].map Expense.amount).sum / (([e0] : List Expense).length : ℚ)) :=
  ⟨(C4_overallStats_safe []).2.2.2 rfl,
   (C4_overallStats_safe [e0]).2.2.1 (by decide)⟩

/-- C1 counterexample: `add_expense` called with amount −1 ≤ 0 still
writes a row (the store changes), contradicting the claim that a
non-positive amount fails with `ValidationError` and leaves the store
unchanged.  (It also returns `True`, not the generated id.) -/
theorem C1_addExpense_counterexample :
    ((-1 : ℚ) ≤ 0) ∧
    (add_expense store1 1 0 "Food" (-1) "").1.expenses ≠ store1.expenses ∧
    (add_expense store1 1 0 "Food" (-1) "").1.expenses.length =
      store1.expenses.length + 1 := by
  refine ⟨by norm_num, by decide, by decide⟩

/-- C1 (amended): `add_expense` itself performs no amount validation: for
every amount (positive or not) it appends exactly one new row with a fresh
id and returns `True`.  The amount > 0 guard lives in the caller (the Add
Expense form handler), which leaves the store unchanged and reports
failure for amount ≤ 0, and for amount > 0 persists exactly one row. -/
theorem C1_addExpense_amended (s : Store) (u : Nat) (d : Int) (c : String)
    (a : ℚ) (txt : String) :
    (add_expense s u d c a txt).2 = true ∧
    (add_expense s u d c a txt).1.expenses =
      s.expenses ++ [{ id := s.next_expense_id, user_id := u, date := d,
                       category := c, amount := a, description := txt }] ∧
    (a ≤ 0 → add_expense_submit s u d c a txt = (s, false)) ∧
    (0 < a →
      (add_expense_submit s u d c a txt).1.expenses =
        s.expenses ++ [{ id := s.next_expense_id, user_id := u, date := d,
                         category := c, amount := a, description := txt }] ∧
      (add_expense_submit s u d c a txt).2 = true) := by
  refine ⟨rfl, rfl, fun h => ?_, fun h => ?_⟩
  · simp [add_expense_submit, not_lt.mpr h]
  · simp [add_expense_submit, h, add_expense]

/-- Witness for C1 (amended): the form handler rejects amount −1 without
writing, and persists exactly one row for amount 5. -/
theorem C1_addExpense_amended_witness :
    add_expense_submit store1 1 0 "Food" (-1) "" = (store1, false) ∧
    (add_expense_submit store1 1 0 "Food" 5 "").1.expenses =
      store1.expenses ++
        [{ id := store1.next_expense_id, user_id := 1, date := 0,
           category := "Food", amount := 5, description := "" }] :=
  ⟨(C1_addExpense_amended store1 1 0 "Food" (-1) "").2.2.1 (by norm_num),
   ((C1_addExpense_amended store1 1 0 "Food" 5 "").2.2.2 (by norm_num)).1⟩

/-- C2: `delete_expense` returns true iff a row matching both the user id
and the expense id existed (and every such row is removed); when it
returns false the store is unchanged; a row owned by another user is never
deleted and remains readable by its true owner via `get_expenses`. -/
theorem C2_deleteExpense_spec (s : Store) (u rid : Nat) :
    ((delete_expense s u rid).2 = true ↔
      ∃ e ∈ s.expenses, e.id = rid ∧ e.user_id = u) ∧
    (∀ e ∈ s.expenses, e.id = rid → e.user_id = u →
      e ∉ (delete_expense s u rid).1.expenses) ∧
    (∀ e ∈ s.expenses, ¬(e.id = rid ∧ e.user_id = u) →
      e ∈ (delete_expense s u rid).1.expenses) ∧
    ((delete_expense s u rid).2 = false → (delete_expense s u rid).1 = s) ∧
    (∀ v, v ≠ u → ∀ e ∈ s.expenses, e.id = rid → e.user_id = v →
      e ∈ get_expenses (delete_expense s u rid).1 v) := by
  have h1 : (delete_expense s u rid).2 = true ↔
      ∃ e ∈ s.expenses, e.id = rid ∧ e.user_id = u := by
    simp only [delete_expense, decide_eq_true_eq]
    rw [List.length_filter_lt_length_iff_exists]
    simp
  refine ⟨h1, ?_, ?_, ?_, ?_⟩
  · intro e he hid huser
    simp [delete_expense, List.mem_filter, hid, huser]
  · intro e he hp
    simp only [delete_expense, List.mem_filter]
    exact ⟨he, by simp only [decide_eq_true_eq]; exact hp⟩
  · intro h2
    have hne : ¬ ∃ e ∈ s.expenses, e.id = rid ∧ e.user_id = u := by
      intro hex
      rw [h1.mpr hex] at h2
      cases h2
    have hall : ∀ e ∈ s.expenses,
        (fun e => decide ¬(e.id = rid ∧ e.user_id = u)) e = true := by
      intro e he
      simp only [decide_eq_true_eq]
      intro hmatch
      exact hne ⟨e, he, hmatch⟩
    show ({ s with expenses := _ } : Store) = s
    rw [List.filter_eq_self.mpr hall]
  · intro v hv e he hid huser
    rw [mem_get_expenses]
    refine ⟨?_, huser⟩
    simp only [delete_expense, List.mem_filter]
    refine ⟨he, ?_⟩
    simp only [decide_eq_true_eq]
    rintro ⟨-, h⟩
    exact hv (huser ▸ h)

/-- Witness for C2: user 2 deleting expense id 1 (owned by user 1) in
`store1` returns false, leaves the store unchanged, and the row is still
readable by user 1. -/
theorem C2_deleteExpense_spec_witness :
    (delete_expense store1 2 1).1 = store1 ∧
    e0 ∈ get_expenses (delete_expense store1 2 1).1 1 :=
  ⟨(C2_deleteExpense_spec store1 2 1).2.2.2.1 (by decide),
   (C2_deleteExpense_spec store1 2 1).2.2.2.2 1 (by decide) e0 (by decide)
     (by decide) (by decide)⟩

/-- C10: every row returned by `get_expenses` (and by the derived
`get_filtered_expenses`) for user u is owned by u — no other user's
record ever appears — and `delete_expense` by user u never removes
another user's rows, which stay readable by their owner. -/
theorem C10_user_isolation (s : Store) (u : Nat) :
    (∀ e ∈ get_expenses s u, e.user_id = u) ∧
    (∀ v, v ≠ u → ∀ e ∈ get_expenses s u, e.user_id ≠ v) ∧
    (∀ c d now, ∀ e ∈ get_filtered_expenses s u c d now, e.user_id = u) ∧
    (∀ rid, ∀ e ∈ s.expenses, e.user_id ≠ u →
      e ∈ (delete_expense s u rid).1.expenses ∧
      e ∈ get_expenses (delete_expense s u rid).1 e.user_id) := by
  refine ⟨?_, ?_, ?_, ?_⟩
  · intro e he
    exact (mem_get_expenses.mp he).2
  · intro v hv e he heq
    exact hv (heq ▸ (mem_get_expenses.mp he).2)
  · intro c d now e he
    exact (mem_get_expenses.mp ((filtered_sublist s u c d now).subset he)).2
  · intro rid e he hne
    have hmem : e ∈ (delete_expense s u rid).1.expenses := by
      simp only [delete_expense, List.mem_filter]
      refine ⟨he, ?_⟩
      simp only [decide_eq_true_eq]
      rintro ⟨-, h⟩
      exact hne h
    exact ⟨hmem, mem_get_expenses.mpr ⟨by simpa [delete_expense] using hmem, rfl⟩⟩

/-- Witness for C10: in the worked-example store, user 1's query results
are owned by user 1 and contain nothing owned by user 2. -/
theorem C10_user_isolation_witness :
    spec8c.user_id = 1 ∧ spec8a.user_id ≠ 2 :=
  ⟨(C10_user_isolation store3 1).1 spec8c (by decide),
   (C10_user_isolation store3 1).2.1 2 (by decide) spec8a (by decide)⟩

/-- C8: `create_user` stores only the digest of the password (the stored
state is unchanged when the password is replaced by any other password
with the same digest, and the stored hash field is the digest); a
duplicate username fails with the duplicate-username message and mutates
nothing, and the original account authenticates exactly as before. -/
theorem C8_createUser_spec (hp : String → String) (s : Store)
    (un pw pw2 em : String) :
    (hp pw = hp pw2 →
      create_user hp s un pw em = create_user hp s un pw2 em) ∧
    ((create_user hp s un pw em).2.1 = true →
      (create_user hp s un pw em).1.users =
        s.users ++ [{ id := s.next_user_id, username := un,
                      password_hash := hp pw, email := em }]) ∧
    ((∃ usr ∈ s.users, usr.username = un) →
      create_user hp s un pw em = (s, false, "Username already exists!")) ∧
    ((∃ usr ∈ s.users, usr.username = un) → ∀ un2 pw3,
      authenticate_user hp (create_user hp s un pw em).1 un2 pw3 =
        authenticate_user hp s un2 pw3) := by
  have hdup : (∃ usr ∈ s.users, usr.username = un) →
      create_user hp s un pw em = (s, false, "Username already exists!") := by
    intro hex
    have hany : s.users.any (fun u => u.username == un) = true := by
      rw [List.any_eq_true]
      obtain ⟨usr, hmem, hname⟩ := hex
      exact ⟨usr, hmem, by simp [hname]⟩
    simp [create_user, hany]
  refine ⟨?_, ?_, hdup, ?_⟩
  · intro h
    simp only [create_user, h]
  · intro hok
    by_cases hany : s.users.any (fun u => u.username == un) = true
    · simp [create_user, hany] at hok
    · simp [create_user, hany]
  · intro hex un2 pw3
    rw [hdup hex]

/-- Witness for C8: duplicate "alice" fails and leaves authentication
unchanged; with a colliding digest the stored state is identical. -/
theorem C8_createUser_spec_witness :
    create_user sampleHash store1 "alice" "b" "" =
      (store1, false, "Username already exists!") ∧
    authenticate_user sampleHash
      (create_user sampleHash store1 "alice" "b" "").1 "alice" "a" =
      authenticate_user sampleHash store1 "alice" "a" ∧
    create_user (fun _ => "k") store1 "bob" "x" "" =
      create_user (fun _ => "k") store1 "bob" "y" "" :=
  ⟨(C8_createUser_spec sampleHash store1 "alice" "b" "b" "").2.2.1
      ⟨{ id := 1, username := "alice", password_hash := "ha", email := "" },
       by decide, rfl⟩,
   (C8_createUser_spec sampleHash store1 "alice" "b" "b" "").2.2.2
      ⟨{ id := 1, username := "alice", password_hash := "ha", email := "" },
       by decide, rfl⟩ "alice" "a",
   (C8_createUser_spec (fun _ => "k") store1 "bob" "x" "y" "").1 rfl⟩

/-- C9: `authenticate_user` returns the matching user's id exactly when a
stored user carries the supplied username and the digest of the supplied
password; an unknown username and a wrong password both return `none`, so
the two failure cases are indistinguishable from the returned value. -/
theorem C9_authenticate_spec (hp : String → String) (s : Store)
    (un pw : String) :
    ((s.users.map User.username).Nodup →
      ∀ usr ∈ s.users, usr.username = un → usr.password_hash = hp pw →
        authenticate_user hp s un pw = some (usr.id, usr.username)) ∧
    ((¬ ∃ usr ∈ s.users, usr.username = un ∧ usr.password_hash = hp pw) →
      authenticate_user hp s un pw = none) ∧
    (∀ (hp2 : String → String) (s2 : Store) (un2 pw2 : String),
      (¬ ∃ usr ∈ s.users, usr.username = un) →
      (∀ usr ∈ s2.users, usr.username = un2 → usr.password_hash ≠ hp2 pw2) →
      authenticate_user hp s un pw = authenticate_user hp2 s2 un2 pw2) := by
  have hnone : ∀ (hp' : String → String) (s' : Store) (un' pw' : String),
      (¬ ∃ usr ∈ s'.users, usr.username = un' ∧ usr.password_hash = hp' pw') →
      authenticate_user hp' s' un' pw' = none := by
    intro hp' s' un' pw' hne
    have : s'.users.find? (fun u =>
        u.username == un' && u.password_hash == hp' pw') = none := by
      rw [List.find?_eq_none]
      intro usr hmem hmatch
      simp only [Bool.and_eq_true, beq_iff_eq] at hmatch
      exact hne ⟨usr, hmem, hmatch⟩
    simp [authenticate_user, this]
  refine ⟨?_, hnone hp s un pw, ?_⟩
  · intro hnd usr hmem hname hhash
    have hfind : s.users.find? (fun u =>
        u.username == un && u.password_hash == hp pw) = some usr := by
      apply find?_eq_of_unique hmem
      · simp [hname, hhash]
      · intro y hy hmatch
        simp only [Bool.and_eq_true, beq_iff_eq] at hmatch
        exact nodup_map_eq_of_eq hnd hy hmem (hmatch.1.trans hname.symm)
    simp [authenticate_user, hfind]
  · intro hp2 s2 un2 pw2 hunknown hwrong
    rw [hnone hp s un pw
        (fun ⟨usr, hmem, hname, _⟩ => hunknown ⟨usr, hmem, hname⟩),
      hnone hp2 s2 un2 pw2
        (fun ⟨usr, hmem, hname, hhash⟩ => hwrong usr hmem hname hhash)]

/-- Witness for C9: alice authenticates with her own password, and the
unknown-username and wrong-password failures return the same value. -/
theorem C9_authenticate_spec_witness :
    authenticate_user sampleHash store1 "alice" "a" = some (1, "alice") ∧
    authenticate_user sampleHash store1 "bob" "a" =
      authenticate_user sampleHash store1 "alice" "z" :=
  ⟨(C9_authenticate_spec sampleHash store1 "alice" "a").1 (by decide)
      { id := 1, username := "alice", password_hash := "ha", email := "" }
      (by decide) rfl (by decide),
   (C9_authenticate_spec sampleHash store1 "bob" "a").2.2
      sampleHash store1 "alice" "z" (by decide) (by decide)⟩

/-- C5 counterexample: with sinceDays = 0 supplied, the claim requires
keeping only records with date ≥ now − 0 = now, but Python's `if days:`
treats 0 as absent, so the stale record (date 0 < now = 5) survives. -/
theorem C5_filter_counterexample :
    e0 ∈ get_filtered_expenses store1 1 none (some 0) 5 ∧
    ¬ ((5 : Int) - ((0 : Nat) : Int) ≤ e0.date) := by
  refine ⟨by decide, by decide⟩

/-- C5 (amended): `get_filtered_expenses` equals a single filter over the
date-descending `get_expenses` output whose predicate is the logical AND
of the category test and the recency test, so order is preserved (the
result is a sublist) and omitting both parameters returns the input
unchanged — except that, by Python truthiness, a supplied category of ""
and a supplied sinceDays of 0 are treated as absent (as is the sentinel
"All"). -/
theorem C5_filter_amended (s : Store) (u : Nat) (c : Option String)
    (d : Option Nat) (now : Int) :
    (get_filtered_expenses s u c d now =
      (get_expenses s u).filter (fun e =>
        (match c with
         | none => true
         | some cs =>
             if cs ≠ "" ∧ cs ≠ "All" then e.category == cs else true) &&
        (match d with
         | none => true
         | some dd =>
             if dd ≠ 0 then decide (now - (dd : Int) ≤ e.date) else true))) ∧
    get_filtered_expenses s u c d now <+ get_expenses s u ∧
    (c = none → d = none → get_filtered_expenses s u c d now = get_expenses s u) := by
  have hmain : get_filtered_expenses s u c d now =
      (get_expenses s u).filter (fun e =>
        (match c with
         | none => true
         | some cs =>
             if cs ≠ "" ∧ cs ≠ "All" then e.category == cs else true) &&
        (match d with
         | none => true
         | some dd =>
             if dd ≠ 0 then decide (now - (dd : Int) ≤ e.date) else true)) := by
    unfold get_filtered_expenses
    by_cases h : (get_expenses s u).isEmpty
    · rw [if_pos h, List.isEmpty_iff.mp h, List.filter_nil]
    · rw [if_neg h]
      rcases d with _ | dd <;> rcases c with _ | cs <;> dsimp only
      · simp
      · split_ifs with hc
        · simp [List.filter_congr]
        · rw [List.filter_eq_self.mpr]
          intro e _
          simp
      · split_ifs with hd
        · apply List.filter_congr
          intro e _
          simp
        · rw [List.filter_eq_self.mpr]
          intro e _
          simp
      · split_ifs with hc hd hd
        · rw [List.filter_filter]
          apply List.filter_congr
          intro e _
          simp [Bool.and_comm]
        · apply List.filter_congr
          intro e _
          simp [hd]
        · apply List.filter_congr
          intro e _
          simp [hc]
        · rw [List.filter_eq_self.mpr]
          intro e _
          simp [hc, hd]
  refine ⟨hmain, ?_, ?_⟩
  · rw [hmain]
    exact List.filter_sublist _
  · rintro rfl rfl
    rw [hmain]
    apply List.filter_eq_self.mpr
    intro e _
    rfl

/-- Witness for C5 (amended): with both parameters omitted the result is
the unfiltered date-descending listing. -/
theorem C5_filter_amended_witness :
    get_filtered_expenses store3 1 none none 40 = get_expenses store3 1 :=
  (C5_filter_amended store3 1 none none 40).2.2 rfl rfl

/-- C7: `nlargest n` returns the n records of largest amount in
descending amount order (the records not returned all have amounts no
larger than every returned one), ties are broken by the original order
(the subsequence of records of any fixed amount is an initial run of that
subsequence of the input), and when fewer than n records exist all of
them are returned, still in descending order. -/
theorem C7_topN_spec (n : Nat) (l : List Expense) :
    (nlargest n l).length = min n l.length ∧
    (nlargest n l).Pairwise amountDesc ∧
    (∃ rest, (nlargest n l ++ rest) ~ l ∧
      ∀ x ∈ nlargest n l, ∀ y ∈ rest, y.amount ≤ x.amount) ∧
    (∀ v : ℚ, ∃ t, (nlargest n l).filter (fun e => e.amount == v) ++ t =
        l.filter (fun e => e.amount == v)) ∧
    (l.length ≤ n → (nlargest n l) ~ l) := by
  have hsorted : (List.insertionSort amountDesc l).Pairwise amountDesc :=
    List.sorted_insertionSort amountDesc l
  have hsplit : List.take n (List.insertionSort amountDesc l) ++
      List.drop n (List.insertionSort amountDesc l) =
      List.insertionSort amountDesc l := List.take_append_drop _ _
  refine ⟨?_, ?_, ?_, ?_, ?_⟩
  · simp [nlargest, List.length_take, List.length_insertionSort]
  · exact List.Pairwise.sublist (List.take_sublist _ _) hsorted
  · refine ⟨List.drop n (List.insertionSort amountDesc l), ?_, ?_⟩
    · rw [nlargest, hsplit]
      exact List.perm_insertionSort amountDesc l
    · have := hsorted
      rw [← hsplit] at this
      intro x hx y hy
      exact (List.pairwise_append.mp this).2.2 x hx y hy
  · intro v
    have hstable : (List.insertionSort amountDesc l).filter
        (fun e => e.amount == v) = l.filter (fun e => e.amount == v) := by
      apply filter_insertionSort_of_tied
      intro a b ha hb
      simp only [beq_iff_eq] at ha hb
      show b.amount ≤ a.amount
      rw [ha, hb]
    refine ⟨(List.drop n (List.insertionSort amountDesc l)).filter
        (fun e => e.amount == v), ?_⟩
    rw [nlargest, ← List.filter_append, hsplit, hstable]
  · intro hlen
    have : List.take n (List.insertionSort amountDesc l) =
        List.insertionSort amountDesc l := by
      apply List.take_of_length_le
      rw [List.length_insertionSort]
      exact hlen
    rw [nlargest, this]
    exact List.perm_insertionSort amountDesc l

/-- Witness for C7: on the 3-record worked example, the top 5 request
returns all three records, and the top 1 request returns the 30.00
Transport row. -/
theorem C7_topN_spec_witness :
    (nlargest 5 store3.expenses) ~ store3.expenses ∧
    nlargest 1 store3.expenses = [spec8c] :=
  ⟨(C7_topN_spec 5 store3.expenses).2.2.2.2 (by decide), by decide⟩

/-- C6: `daily_spending` groups records by calendar date, sums amounts
per date, keeps at most the `w` most recent distinct dates that actually
appear in the data (every excluded date with data is older than every
kept one, and if at most `w` distinct dates exist all of them are kept),
and returns the pairs in ascending date order. -/
theorem C6_dailySeries_spec (records : List Expense) (w : Nat) :
    (daily_spending records w).length ≤ w ∧
    (daily_spending records w).Pairwise (fun p q => p.1 < q.1) ∧
    (∀ p ∈ daily_spending records w,
      (∃ e ∈ records, e.date = p.1) ∧
      p.2 = ((records.filter (fun e => e.date == p.1)).map Expense.amount).sum) ∧
    (∀ e ∈ records, (∀ p ∈ daily_spending records w, p.1 ≠ e.date) →
      ∀ p ∈ daily_spending records w, e.date < p.1) ∧
    ((records.map Expense.date).dedup.length ≤ w →
      ∀ e ∈ records, ∃ p ∈ daily_spending records w, p.1 = e.date) := by
  have hdates_sorted :
      (List.insertionSort (· ≤ ·) (records.map Expense.date).dedup).Sorted
        (· ≤ ·) :=
    List.sorted_insertionSort _ _
  have hdates_nodup :
      (List.insertionSort (· ≤ ·) (records.map Expense.date).dedup).Nodup :=
    (List.perm_insertionSort _ _).nodup_iff.mpr (List.nodup_dedup _)
  have hdates_lt :
      (List.insertionSort (· ≤ ·) (records.map Expense.date).dedup).Sorted
        (· < ·) :=
    hdates_sorted.lt_of_le hdates_nodup
  have hdates_mem : ∀ d : Int,
      d ∈ List.insertionSort (· ≤ ·) (records.map Expense.date).dedup ↔
        d ∈ records.map Expense.date := by
    intro d
    rw [List.mem_insertionSort, List.mem_dedup]
  have hgrouped_pair :
      ((List.insertionSort (· ≤ ·) (records.map Expense.date).dedup).map
        (fun d => (d,
          ((records.filter (fun e => e.date == d)).map Expense.amount).sum))).Pairwise
        (fun p q : Int × ℚ => p.1 < q.1) := by
    rw [List.pairwise_map]
    exact hdates_lt
  have hresult : daily_spending records w =
      (((List.insertionSort (· ≤ ·) (records.map Expense.date).dedup).map
        (fun d => (d,
          ((records.filter (fun e => e.date == d)).map Expense.amount).sum))).drop
        (((List.insertionSort (· ≤ ·) (records.map Expense.date).dedup).map
          (fun d => (d,
            ((records.filter (fun e => e.date == d)).map Expense.amount).sum))).length
          - w)) := rfl
  refine ⟨?_, ?_, ?_, ?_, ?_⟩
  · rw [hresult, List.length_drop]
    omega
  · rw [hresult]
    exact List.Pairwise.sublist (List.drop_sublist _ _) hgrouped_pair
  · intro p hp
    rw [hresult] at hp
    have hp' := (List.drop_sublist _ _).subset hp
    obtain ⟨d, hd, rfl⟩ := List.mem_map.mp hp'
    refine ⟨?_, rfl⟩
    obtain ⟨e, he, hedate⟩ := List.mem_map.mp ((hdates_mem d).mp hd)
    exact ⟨e, he, hedate⟩
  · intro e he hnot p hp
    have hd : e.date ∈
        List.insertionSort (· ≤ ·) (records.map Expense.date).dedup :=
      (hdates_mem e.date).mpr (List.mem_map_of_mem Expense.date he)
    have hq : (e.date,
        ((records.filter (fun x => x.date == e.date)).map Expense.amount).sum) ∈
        (List.insertionSort (· ≤ ·) (records.map Expense.date).dedup).map
          (fun d => (d,
            ((records.filter (fun x => x.date == d)).map Expense.amount).sum)) :=
      List.mem_map_of_mem _ hd
    set grouped := (List.insertionSort (· ≤ ·)
        (records.map Expense.date).dedup).map
      (fun d => (d,
        ((records.filter (fun x => x.date == d)).map Expense.amount).sum))
      with hgrouped
    have hsplit : List.take (grouped.length - w) grouped ++
        List.drop (grouped.length - w) grouped = grouped :=
      List.take_append_drop _ _
    have hqsplit : (e.date,
        ((records.filter (fun x => x.date == e.date)).map Expense.amount).sum) ∈
        List.take (grouped.length - w) grouped ∨
        (e.date,
        ((records.filter (fun x => x.date == e.date)).map Expense.amount).sum) ∈
        List.drop (grouped.length - w) grouped := by
      rw [← List.mem_append, hsplit]
      exact hq
    rcases hqsplit with hqtake | hqdrop
    · have hpair := hgrouped_pair
      rw [← hsplit] at hpair
      have := (List.pairwise_append.mp hpair).2.2 _ hqtake p (by
        rw [hresult] at hp
        exact hp)
      exact this
    · exact absurd rfl (hnot _ (by rw [hresult]; exact hqdrop))
  · intro hlen e he
    have hlen' : ((List.insertionSort (· ≤ ·)
        (records.map Expense.date).dedup).map
      (fun d => (d,
        ((records.filter (fun x => x.date == d)).map Expense.amount).sum))).length
        - w = 0 := by
      rw [List.length_map, List.length_insertionSort]
      omega
    have hd : e.date ∈
        List.insertionSort (· ≤ ·) (records.map Expense.date).dedup :=
      (hdates_mem e.date).mpr (List.mem_map_of_mem Expense.date he)
    refine ⟨(e.date,
      ((records.filter (fun x => x.date == e.date)).map Expense.amount).sum),
      ?_, rfl⟩
    rw [hresult, hlen', List.drop_zero]
    exact List.mem_map_of_mem _ hd

/-- Witness for C6: in the worked example all three distinct dates fit in
a window of 3, and a window of 2 keeps the two most recent dates with
data, ascending. -/
theorem C6_dailySeries_spec_witness :
    (∃ p ∈ daily_spending store3.expenses 3, p.1 = spec8a.date) ∧
    daily_spending store3.expenses 2 = [(20, 15/2), (32, 30)] :=
  ⟨(C6_dailySeries_spec store3.expenses 3).2.2.2.2 (by decide) spec8a
      (by decide),
   by decide⟩

/-- C3: `get_category_summary` maps each category present in the user's
records (and only those, each exactly once) to a row with total = sum of
that category's amounts, count = its row count, and percentage =
100 × total / grand-total rounded to two decimals, where grand-total is
the sum of the per-category totals; an empty record set yields an empty
summary; the rows are ordered by total descending with ties broken by
category name ascending. -/
theorem C3_categorySummary_spec (s : Store) (u : Nat) :
    (get_expenses s u = [] → get_category_summary s u = []) ∧
    ((get_category_summary s u).map CatRow.category).Nodup ∧
    (∀ c : String, (∃ e ∈ get_expenses s u, e.category = c) ↔
      (∃ row ∈ get_category_summary s u, row.category = c)) ∧
    (∀ row ∈ get_category_summary s u,
      row.total = (((get_expenses s u).filter
          (fun e => e.category == row.category)).map Expense.amount).sum ∧
      row.count = ((get_expenses s u).filter
          (fun e => e.category == row.category)).length ∧
      row.percentage = round2 (100 * row.total /
        ((get_category_summary s u).map CatRow.total).sum)) ∧
    (∀ a b : CatRow, [a, b] <+ get_category_summary s u →
      b.total < a.total ∨ (a.total = b.total ∧ strLt a.category b.category)) := by
  by_cases hemp : (get_expenses s u).isEmpty = true
  · have hnil : get_expenses s u = [] := List.isEmpty_iff.mp hemp
    have hsum : get_category_summary s u = [] := by
      simp only [get_category_summary]
      rw [if_pos hemp]
    refine ⟨fun _ => hsum, by simp [hsum], ?_, ?_, ?_⟩
    · intro c
      simp [hsum, hnil]
    · intro row hrow
      rw [hsum] at hrow
      cases hrow
    · intro a b hab
      rw [hsum] at hab
      exact absurd (List.sublist_nil.mp hab) (by simp)
  · have hdef := get_category_summary_eq s u hemp
    have hperm : get_category_summary s u ~
        (groupKeys (get_expenses s u)).map (summaryRow (get_expenses s u)) := by
      rw [hdef]
      exact List.perm_insertionSort _ _
    have hsorted : (get_category_summary s u).Pairwise totalDesc := by
      rw [hdef]
      exact List.sorted_insertionSort _ _
    have hrows_pair :
        ((groupKeys (get_expenses s u)).map (summaryRow (get_expenses s u))).Pairwise
          (fun r1 r2 : CatRow => strLt r1.category r2.category) := by
      rw [List.pairwise_map]
      exact (groupKeys_pairwise_lt _).imp fun h => h
    have hmapcat :
        ((groupKeys (get_expenses s u)).map (summaryRow (get_expenses s u))).map
          CatRow.category = groupKeys (get_expenses s u) := by
      rw [List.map_map]
      have h1 : ∀ c ∈ groupKeys (get_expenses s u),
          (CatRow.category ∘ summaryRow (get_expenses s u)) c = id c :=
        fun c _ => rfl
      rw [List.map_congr_left h1, List.map_id]
    have hrows_nodup :
        ((groupKeys (get_expenses s u)).map (summaryRow (get_expenses s u))).Nodup := by
      apply List.Nodup.of_map CatRow.category
      rw [hmapcat]
      exact groupKeys_nodup _
    have hsum_nodup : (get_category_summary s u).Nodup :=
      hperm.nodup_iff.mpr hrows_nodup
    have hgrand : ((get_category_summary s u).map CatRow.total).sum =
        (((groupKeys (get_expenses s u)).map
          (catRowFor (get_expenses s u))).map CatRow.total).sum := by
      have h1 : ((get_category_summary s u).map CatRow.total).sum =
          (((groupKeys (get_expenses s u)).map
            (summaryRow (get_expenses s u))).map CatRow.total).sum :=
        (hperm.map CatRow.total).sum_eq
      rw [h1, List.map_map, List.map_map]
      have h2 : ∀ c ∈ groupKeys (get_expenses s u),
          (CatRow.total ∘ summaryRow (get_expenses s u)) c =
            (CatRow.total ∘ catRowFor (get_expenses s u)) c := fun c _ => rfl
      rw [List.map_congr_left h2]
    refine ⟨?_, ?_, ?_, ?_, ?_⟩
    · intro hnil
      exact absurd (List.isEmpty_iff.mpr hnil) hemp
    · exact (hperm.map CatRow.category).nodup_iff.mpr
        (by rw [hmapcat]; exact groupKeys_nodup _)
    · intro c
      constructor
      · rintro ⟨e, he, rfl⟩
        have hc : e.category ∈ groupKeys (get_expenses s u) :=
          mem_groupKeys.mpr ⟨e, he, rfl⟩
        exact ⟨summaryRow (get_expenses s u) e.category,
          hperm.mem_iff.mpr (List.mem_map_of_mem _ hc), rfl⟩
      · rintro ⟨row, hrow, rfl⟩
        obtain ⟨c, hc, rfl⟩ := List.mem_map.mp (hperm.mem_iff.mp hrow)
        obtain ⟨e, he, hec⟩ := mem_groupKeys.mp hc
        exact ⟨e, he, hec⟩
    · intro row hrow
      obtain ⟨c, hc, rfl⟩ := List.mem_map.mp (hperm.mem_iff.mp hrow)
      refine ⟨rfl, rfl, ?_⟩
      rw [hgrand]
      have hpct : (summaryRow (get_expenses s u) c).percentage =
          round2 ((catRowFor (get_expenses s u) c).total /
            (((groupKeys (get_expenses s u)).map
              (catRowFor (get_expenses s u))).map CatRow.total).sum * 100) := rfl
      have ht : (summaryRow (get_expenses s u) c).total =
          (((get_expenses s u).filter (fun e =>
            e.category == (summaryRow (get_expenses s u) c).category)).map
              Expense.amount).sum := rfl
      rw [hpct]
      apply congrArg round2
      have ht2 : (summaryRow (get_expenses s u) c).total =
          (catRowFor (get_expenses s u) c).total := rfl
      rw [ht2]
      ring
    · intro a b hab
      have htd : b.total ≤ a.total :=
        List.pairwise_iff_forall_sublist.mp hsorted hab
      rcases lt_or_eq_of_le htd with hlt | heq
      · exact Or.inl hlt
      · refine Or.inr ⟨heq.symm, ?_⟩
        have hane : a ≠ b := by
          rintro rfl
          exact (List.nodup_iff_sublist.mp hsum_nodup a) hab
        have hamem : a ∈ (groupKeys (get_expenses s u)).map
            (summaryRow (get_expenses s u)) :=
          hperm.mem_iff.mp (hab.subset (by simp))
        have hbmem : b ∈ (groupKeys (get_expenses s u)).map
            (summaryRow (get_expenses s u)) :=
          hperm.mem_iff.mp (hab.subset (by simp))
        rcases mem_pair_sublist hamem hbmem hane with hpair | hpair
        · exact List.pairwise_iff_forall_sublist.mp hrows_pair hpair
        · exfalso
          have hrel : totalDesc b a := le_of_eq heq.symm
          have hba : [b, a] <+ get_category_summary s u := by
            rw [hdef]
            exact List.pair_sublist_insertionSort hrel hpair
          exact hane (pair_sublist_antisymm hsum_nodup hab hba)

/-- Witness for C3: in the worked example, the Transport row carries
total 30, count 1 and percentage 60.00, matching the formulas at that
concrete store, and a user with no records gets an empty summary. -/
theorem C3_categorySummary_spec_witness :
    ((CatRow.mk "Transport" 30 1 60).total =
      (((get_expenses store3 1).filter (fun e =>
        e.category == (CatRow.mk "Transport" 30 1 60).category)).map
          Expense.amount).sum ∧
     (CatRow.mk "Transport" 30 1 60).count =
      ((get_expenses store3 1).filter (fun e =>
        e.category == (CatRow.mk "Transport" 30 1 60).category)).length ∧
     (CatRow.mk "Transport" 30 1 60).percentage =
      round2 (100 * (CatRow.mk "Transport" 30 1 60).total /
        ((get_category_summary store3 1).map CatRow.total).sum)) ∧
    get_category_summary store1 2 = [] :=
  ⟨(C3_categorySummary_spec store3 1).2.2.2.1 (CatRow.mk "Transport" 30 1 60)
      (by decide),
   (C3_categorySummary_spec store1 2).1 (by decide)⟩

end Tracker
